import Mathlib

/-!
# GEOS: `DefaultCoordinateSequence` and `LineSegmentIndex`

A shallow embedding of `source/geom/DefaultCoordinateSequence.cpp` and of
`src/simplify/LineSegmentIndex.cpp`, and the properties of the specification
that concern them.

Ordinates (`double` in the source) are only stored, copied and compared, so
the embedding is generic in the type `D` of ordinate values; the envelope
operations need an order on `D`.  A `std::vector<Coordinate>` is a `List`,
an `int` position is an `Int`, and `vect->size()` is the length of the list
(sizes are taken within the range of `int`, the type of every position and
of `getSize()`).
-/

namespace geos

/-! ## Data model -/

/-- Coordinate value type: the three ordinates `x`, `y`, `z`. -/
structure Coordinate (D : Type) where
  x : D
  y : D
  z : D
deriving DecidableEq, Repr

/-- The declarations of `geos/geom.h` that `DefaultCoordinateSequence.cpp` uses and
that are not part of the source file itself: the macro `PARANOIA_LEVEL`, the
ordinate indices `CoordinateSequence::X`, `Y`, `Z` (case labels of one `switch`,
hence pairwise different) and the constant `DoubleNotANumber`. -/
structure GeomHeader (D : Type) where
  PARANOIA_LEVEL : Nat
  X : Int
  Y : Int
  Z : Int
  DoubleNotANumber : D
  X_ne_Y : X ≠ Y
  X_ne_Z : X ≠ Z
  Y_ne_Z : Y ≠ Z

/-- The ways a call can fail: the `IllegalArgumentException("Coordinate number out
of range")` thrown by the bounds check, and an access outside the vector that no
check has caught (undefined behaviour in C++; the embedding stops there). -/
inductive Failure where
  | IllegalArgumentException
  | undefinedBehaviour
deriving DecidableEq, Repr

deriving instance DecidableEq for Except

/-- The object `DefaultCoordinateSequence`: its only member is `vect`, the vector of
coordinates it owns. -/
structure DefaultCoordinateSequence (D : Type) where
  vect : List (Coordinate D)
deriving DecidableEq, Repr

/-- What a mutating member function leaves behind: the exception it has thrown, if
any, and the sequence after the call. -/
structure Outcome (D : Type) where
  thrown : Option Failure
  seq : DefaultCoordinateSequence D
deriving DecidableEq, Repr

namespace DefaultCoordinateSequence

variable {D : Type}

/-- The expression `vect->size()`. -/
def size (s : DefaultCoordinateSequence D) : Nat :=
  s.vect.length

/-- The expression `(*vect)[pos]` for an `int` position: defined only inside the vector. -/
def subscript (s : DefaultCoordinateSequence D) (pos : Int) : Option (Coordinate D) :=
  if pos < 0 then none else s.vect[pos.toNat]?

/-- The position `pos` is outside `[0, size)`. -/
def OutOfRange (s : DefaultCoordinateSequence D) (pos : Int) : Prop :=
  pos < 0 ∨ (s.size : Int) ≤ pos

/-- The guard `#if PARANOIA_LEVEL > 0  if (pos<0 || pos>=vect->size()) throw ...`:
true when the exception is thrown.  (The second comparison is only evaluated for
`pos >= 0`, where converting `pos` to the unsigned size type changes nothing.) -/
def rangeCheckThrows (H : GeomHeader D) (s : DefaultCoordinateSequence D) (pos : Int) : Bool :=
  decide (0 < H.PARANOIA_LEVEL) && (decide (pos < 0) || decide ((s.vect.length : Int) ≤ pos))

/-- Member function `add`: `vect->push_back(c)`. -/
def add (s : DefaultCoordinateSequence D) (c : Coordinate D) : DefaultCoordinateSequence D :=
  ⟨s.vect ++ [c]⟩

/-- Member function `setPoints`: `vect->assign(v.begin(), v.end())`. -/
def setPoints (_s : DefaultCoordinateSequence D) (v : List (Coordinate D)) :
    DefaultCoordinateSequence D :=
  ⟨v⟩

/-- Member function `getAt`: the guard, then `return (*vect)[pos]`. -/
def getAt (H : GeomHeader D) (s : DefaultCoordinateSequence D) (pos : Int) :
    Except Failure (Coordinate D) :=
  if rangeCheckThrows H s pos then .error .IllegalArgumentException
  else match s.subscript pos with
    | some c => .ok c
    | none => .error .undefinedBehaviour

/-- Member function `setAt`: `(*vect)[pos]=c` after the guard. -/
def setAt (H : GeomHeader D) (s : DefaultCoordinateSequence D) (c : Coordinate D) (pos : Int) :
    Outcome D :=
  if rangeCheckThrows H s pos then ⟨some .IllegalArgumentException, s⟩
  else match s.subscript pos with
    | some _ => ⟨none, ⟨s.vect.set pos.toNat c⟩⟩
    | none => ⟨some .undefinedBehaviour, s⟩

/-- Member function `deleteAt`: `vect->erase(vect->begin()+pos)` after the guard. -/
def deleteAt (H : GeomHeader D) (s : DefaultCoordinateSequence D) (pos : Int) : Outcome D :=
  if rangeCheckThrows H s pos then ⟨some .IllegalArgumentException, s⟩
  else match s.subscript pos with
    | some _ => ⟨none, ⟨s.vect.eraseIdx pos.toNat⟩⟩
    | none => ⟨some .undefinedBehaviour, s⟩

/-- Member function `getOrdinate`: the guard, then the `switch` whose every
case returns; only the three named cases read the vector. -/
def getOrdinate (H : GeomHeader D) (s : DefaultCoordinateSequence D)
    (index ordinateIndex : Int) : Except Failure D :=
  if rangeCheckThrows H s index then .error .IllegalArgumentException
  else if ordinateIndex = H.X then
    match s.subscript index with
    | some c => .ok c.x
    | none => .error .undefinedBehaviour
  else if ordinateIndex = H.Y then
    match s.subscript index with
    | some c => .ok c.y
    | none => .error .undefinedBehaviour
  else if ordinateIndex = H.Z then
    match s.subscript index with
    | some c => .ok c.z
    | none => .error .undefinedBehaviour
  else .ok H.DoubleNotANumber

/-- One statement `(*vect)[index].f = value` of `setOrdinate`, where `assign c value`
is the coordinate `c` with its field `f` overwritten. -/
def assignField (assign : Coordinate D → D → Coordinate D) (index : Int) (value : D)
    (s : DefaultCoordinateSequence D) : Outcome D :=
  match s.subscript index with
  | some c => ⟨none, ⟨s.vect.set index.toNat (assign c value)⟩⟩
  | none => ⟨some .undefinedBehaviour, s⟩

/-- Sequencing of two statements: the second runs on the sequence left by the first,
unless the first has failed. -/
def Outcome.andThen (o : Outcome D) (next : DefaultCoordinateSequence D → Outcome D) :
    Outcome D :=
  match o.thrown with
  | none => next o.seq
  | some e => ⟨some e, o.seq⟩

/-- The statement `(*vect)[index].x = value`. -/
def assignX (index : Int) (value : D) (s : DefaultCoordinateSequence D) : Outcome D :=
  assignField (fun c v => { c with x := v }) index value s

/-- The statement `(*vect)[index].y = value`. -/
def assignY (index : Int) (value : D) (s : DefaultCoordinateSequence D) : Outcome D :=
  assignField (fun c v => { c with y := v }) index value s

/-- The statement `(*vect)[index].z = value`. -/
def assignZ (index : Int) (value : D) (s : DefaultCoordinateSequence D) : Outcome D :=
  assignField (fun c v => { c with z := v }) index value s

/-- Member function `setOrdinate`: the guard, then the `switch`.  No case
of the source ends in `break`, so control entering at `case X` runs the statements
of `case Y` and `case Z` as well, and control entering at `case Y` runs that of
`case Z`, before `default: return`. -/
def setOrdinate (H : GeomHeader D) (s : DefaultCoordinateSequence D)
    (index ordinateIndex : Int) (value : D) : Outcome D :=
  if rangeCheckThrows H s index then ⟨some .IllegalArgumentException, s⟩
  else if ordinateIndex = H.X then
    Outcome.andThen (Outcome.andThen (assignX index value s) (assignY index value))
      (assignZ index value)
  else if ordinateIndex = H.Y then
    Outcome.andThen (assignY index value s) (assignZ index value)
  else if ordinateIndex = H.Z then
    assignZ index value s
  else ⟨none, s⟩

/-- The loop `for (unsigned int i=0; i<size; i++) env.expandToInclude((*vect)[i])`,
entered at index `i` with `n = size - i` iterations left; `expandToInclude` is the
member function of `Envelope`, which is not part of this source file. -/
def expandEnvelopeLoop {E : Type} (expandToInclude : E → Coordinate D → E)
    (s : DefaultCoordinateSequence D) : Nat → Nat → E → E
  | 0, _, env => env
  | n + 1, i, env =>
    match s.vect[i]? with
    | some c => expandEnvelopeLoop expandToInclude s n (i + 1) (expandToInclude env c)
    | none => env

/-- Member function `expandEnvelope`: `unsigned int size = vect->size()` (the size
itself, sizes being within the range of `int`), then the loop from index 0; returns
the envelope after the loop.  The member function is `const`, the sequence is not
written. -/
def expandEnvelope {E : Type} (expandToInclude : E → Coordinate D → E)
    (s : DefaultCoordinateSequence D) (env : E) : E :=
  expandEnvelopeLoop expandToInclude s s.size 0 env

/-- The default constructor: `vect(new vector<Coordinate>())`, a new empty vector. -/
def construct : DefaultCoordinateSequence D :=
  ⟨[]⟩

/-- The constructor `DefaultCoordinateSequence(int n)`: `vect(new vector<Coordinate>(n))`,
a new vector of `n` coordinates, each built by the default constructor of
`Coordinate`.  That class is not part of this source file, so the coordinate it
builds is the parameter `defaultCoordinate`.  A negative `n`, converted to the
unsigned size type, is more than a vector can hold: the allocation throws and no
object is built (`none`). -/
def constructSized (defaultCoordinate : Coordinate D) (n : Int) :
    Option (DefaultCoordinateSequence D) :=
  if n < 0 then none else some ⟨List.replicate n.toNat defaultCoordinate⟩

/-- The constructor `DefaultCoordinateSequence(vector<Coordinate> *coords)`:
`vect(coords)`, then `if ( ! vect ) vect = new vector<Coordinate>()`.  The pointer
`coords` is either null (`none`) or points to a vector (`some v`). -/
def constructAdopting (coords : Option (List (Coordinate D))) : DefaultCoordinateSequence D :=
  match coords with
  | some v => ⟨v⟩
  | none => ⟨[]⟩

/-- Member function `isEmpty`: `return vect->empty()`. -/
def isEmpty (s : DefaultCoordinateSequence D) : Bool :=
  s.vect.isEmpty

/-- Member function `getSize`: `return (int)vect->size()`; the cast changes nothing
for sizes within the range of `int`. -/
def getSize (s : DefaultCoordinateSequence D) : Int :=
  (s.vect.length : Int)

end DefaultCoordinateSequence

/-! ## Sequences as objects on the free store

`DefaultCoordinateSequence` holds a pointer `vect` to a vector allocated with `new`.
To speak about two objects sharing or not sharing a buffer, the vectors live in a
store and an object is the address of its vector. -/

/-- The free store of coordinate vectors: the vector at position `a` is the one
allocated at address `a`; `new` allocates at the first unused address. -/
abbrev VectorStore (D : Type) := List (List (Coordinate D))

/-- A `DefaultCoordinateSequence` object in memory: its member `vect`, a pointer. -/
structure SequenceObject where
  vect : Nat
deriving DecidableEq, Repr

/-- The mutating member functions of `DefaultCoordinateSequence`, with their arguments. -/
inductive Mutation (D : Type) where
  | add (c : Coordinate D)
  | setAt (c : Coordinate D) (pos : Int)
  | deleteAt (pos : Int)
  | setOrdinate (index ordinateIndex : Int) (value : D)
  | setPoints (v : List (Coordinate D))

/-- The effect of one mutating call on the sequence it is applied to. -/
def Mutation.run {D : Type} (H : GeomHeader D) (m : Mutation D)
    (s : DefaultCoordinateSequence D) : Outcome D :=
  match m with
  | .add c => ⟨none, s.add c⟩
  | .setAt c pos => s.setAt H c pos
  | .deleteAt pos => s.deleteAt H pos
  | .setOrdinate index ordinateIndex value => s.setOrdinate H index ordinateIndex value
  | .setPoints v => ⟨none, s.setPoints v⟩

namespace SequenceObject

variable {D : Type}

/-- The sequence an object currently holds: the vector its pointer refers to. -/
def contents (o : SequenceObject) (store : VectorStore D) :
    Option (DefaultCoordinateSequence D) :=
  (store[o.vect]?).map (fun v => ⟨v⟩)

/-- The copy constructor `vect(new vector<Coordinate>(*(c.vect)))`: a new vector,
copy of the one `c` points to, is allocated and the new object points to it. -/
def copyConstruct (store : VectorStore D) (c : SequenceObject) :
    Option (VectorStore D × SequenceObject) :=
  match store[c.vect]? with
  | some v => some (store ++ [v], ⟨store.length⟩)
  | none => none

/-- Member function `clone`: `return new DefaultCoordinateSequence(*this)`. -/
def clone (store : VectorStore D) (o : SequenceObject) :
    Option (VectorStore D × SequenceObject) :=
  copyConstruct store o

/-- A mutating call on the object `o`: the member function runs on the vector `o`
points to and the vector it leaves is written back at the same address. -/
def call (H : GeomHeader D) (o : SequenceObject) (store : VectorStore D) (m : Mutation D) :
    VectorStore D :=
  match store[o.vect]? with
  | some v => store.set o.vect (m.run H ⟨v⟩).seq.vect
  | none => store

/-- A series of mutating calls on the object `o`, in order (a call that throws leaves
the store as it was; the calls after it still run, so every way of stopping early
is a series too). -/
def callAll (H : GeomHeader D) (o : SequenceObject) (store : VectorStore D)
    (ms : List (Mutation D)) : VectorStore D :=
  ms.foldl (call H o) store

end SequenceObject

/-! ## Envelopes and the spatial index (collaborators of `LineSegmentIndex`) -/

/-- Modelled from the spec: `Envelope` (its header and implementation are not under
src).  "Envelope: axis-aligned bounding box (minX, maxX, minY, maxY); derived from
one or two coordinates". -/
structure Envelope (D : Type) where
  minx : D
  maxx : D
  miny : D
  maxy : D
deriving DecidableEq, Repr

namespace Envelope

variable {D : Type} [LinearOrder D]

/-- Modelled from the spec: the constructor `Envelope(p0, p1)`, "the bounding box of
the segment's endpoints". -/
def ofPoints (p0 p1 : Coordinate D) : Envelope D :=
  ⟨min p0.x p1.x, max p0.x p1.x, min p0.y p1.y, max p0.y p1.y⟩

/-- Modelled from the spec: the bounding-box intersection test of two envelopes: they
overlap on both axes. -/
def intersects (a b : Envelope D) : Bool :=
  decide (b.minx ≤ a.maxx) && decide (a.minx ≤ b.maxx) &&
    decide (b.miny ≤ a.maxy) && decide (a.miny ≤ b.maxy)

/-- Modelled from the spec: the static test `Envelope::intersects(p0, p1, q0, q1)`:
whether the bounding box of `p0`, `p1` intersects the bounding box of `q0`, `q1`. -/
def intersectsPoints (p0 p1 q0 q1 : Coordinate D) : Bool :=
  (ofPoints p0 p1).intersects (ofPoints q0 q1)

/-- Modelled from the spec: `Envelope::expandToInclude(c)`, the smallest box that
holds the envelope and the coordinate. -/
def expandToInclude (e : Envelope D) (c : Coordinate D) : Envelope D :=
  ⟨min e.minx c.x, max e.maxx c.x, min e.miny c.y, max e.maxy c.y⟩

/-- The coordinate `c` lies in the box `e`. -/
def covers (e : Envelope D) (c : Coordinate D) : Prop :=
  e.minx ≤ c.x ∧ c.x ≤ e.maxx ∧ e.miny ≤ c.y ∧ c.y ≤ e.maxy

/-- The box `inner` lies in the box `e`. -/
def contains (e inner : Envelope D) : Prop :=
  e.minx ≤ inner.minx ∧ inner.maxx ≤ e.maxx ∧ e.miny ≤ inner.miny ∧ inner.maxy ≤ e.maxy

end Envelope

/-- A `LineSegment`: its two endpoints. -/
structure LineSegment (D : Type) where
  p0 : Coordinate D
  p1 : Coordinate D
deriving DecidableEq, Repr

/-- The line segments as they stand in memory: `mem a` is the segment at address `a`.
The index handles segments by pointer, and their endpoints may be rewritten by
their owner between two calls. -/
abbrev SegmentMemory (D : Type) := Nat → LineSegment D

/-- Modelled from the spec: the backing `SpatialIndex` (the quadtree, not under src),
"a bounding-box keyed structure supporting insert(box, item), remove(box, item),
and query(box)".  It is the list of its entries, a box and the pointer to a
segment, in the order of insertion. -/
structure SpatialIndex (D : Type) where
  entries : List (Envelope D × Nat)
deriving DecidableEq, Repr

namespace SpatialIndex

variable {D : Type}

/-- Modelled from the spec: `insert(box, item)` adds one entry. -/
def insert (t : SpatialIndex D) (box : Envelope D) (item : Nat) : SpatialIndex D :=
  ⟨t.entries ++ [(box, item)]⟩

/-- Modelled from the spec: `remove(box, item)` "removes the matching entry": the first
entry with that box and that item, if there is one. -/
def remove [DecidableEq D] (t : SpatialIndex D) (box : Envelope D) (item : Nat) :
    SpatialIndex D :=
  ⟨t.entries.erase (box, item)⟩

/-- Modelled from the spec: `query(box)` delivers, in order, the items of the entries
the index takes for candidates.  `candidate` is the test of the index, which "may
return false positives relative to exact box overlap". -/
def query (candidate : Envelope D → Envelope D → Bool) (t : SpatialIndex D)
    (box : Envelope D) : List Nat :=
  (t.entries.filter (fun e => candidate e.1 box)).map Prod.snd

/-- Modelled from the spec: the contract "must not return false negatives": an entry
whose box intersects the queried box is a candidate. -/
def NoFalseNegatives [LinearOrder D] (candidate : Envelope D → Envelope D → Bool) : Prop :=
  ∀ a b : Envelope D, a.intersects b = true → candidate a b = true

end SpatialIndex

/-! ## `LineSegmentIndex` -/

/-- The object `LineSegmentIndex`: the spatial index `index` and the envelopes
`newEnvelopes` it has allocated and owns. -/
structure LineSegmentIndex (D : Type) where
  index : SpatialIndex D
  newEnvelopes : List (Envelope D)
deriving DecidableEq, Repr

namespace LineSegmentIndex

variable {D : Type} [LinearOrder D]

/-- A newly constructed index: nothing inserted, no envelope allocated. -/
def empty : LineSegmentIndex D :=
  ⟨⟨[]⟩, []⟩

/-- Member function `add(const LineSegment* seg)`: builds `Envelope(seg->p0, seg->p1)`,
inserts the segment under it, and keeps the envelope in `newEnvelopes`. -/
def add (mem : SegmentMemory D) (idx : LineSegmentIndex D) (seg : Nat) : LineSegmentIndex D :=
  let env := Envelope.ofPoints (mem seg).p0 (mem seg).p1
  ⟨idx.index.insert env seg, idx.newEnvelopes ++ [env]⟩

/-- Member function `add(const TaggedLineString& line)`: `add(seg)` for each segment of
the line, in order. -/
def addLine (mem : SegmentMemory D) (idx : LineSegmentIndex D) (segments : List Nat) :
    LineSegmentIndex D :=
  segments.foldl (add mem) idx

/-- Member function `remove`: builds `Envelope(seg->p0, seg->p1)` from the current
endpoints and calls `index.remove(&env, seg)`. -/
def remove (mem : SegmentMemory D) (idx : LineSegmentIndex D) (seg : Nat) :
    LineSegmentIndex D :=
  let env := Envelope.ofPoints (mem seg).p0 (mem seg).p1
  ⟨idx.index.remove env seg, idx.newEnvelopes⟩

/-- The callback `LineSegmentVisitor::visitItem`: the delivered segment is appended to
`items` when `Envelope::intersects(seg->p0, seg->p1, querySeg->p0, querySeg->p1)`. -/
def visitItem (mem : SegmentMemory D) (querySeg : Nat) (items : List Nat) (item : Nat) :
    List Nat :=
  if Envelope.intersectsPoints (mem item).p0 (mem item).p1 (mem querySeg).p0 (mem querySeg).p1
  then items ++ [item]
  else items

/-- Member function `query`: builds the envelope of the query segment, lets the index
visit its candidates with a new `LineSegmentVisitor`, and returns the visitor's items. -/
def query (candidate : Envelope D → Envelope D → Bool) (mem : SegmentMemory D)
    (idx : LineSegmentIndex D) (querySeg : Nat) : List Nat :=
  let env := Envelope.ofPoints (mem querySeg).p0 (mem querySeg).p1
  (idx.index.query candidate env).foldl (visitItem mem querySeg) []

end LineSegmentIndex

/-- A call of one of the three public member functions of `LineSegmentIndex` that
take a segment, with the segment it is given. -/
inductive IndexCall where
  | add (seg : Nat)
  | remove (seg : Nat)
  | query (querySeg : Nat)
deriving DecidableEq, Repr

namespace LineSegmentIndex

variable {D : Type} [LinearOrder D]

/-- The index after one call.  `query` hands its result to the caller and writes
neither `index` nor `newEnvelopes`. -/
def perform (mem : SegmentMemory D) (idx : LineSegmentIndex D) (c : IndexCall) :
    LineSegmentIndex D :=
  match c with
  | .add seg => add mem idx seg
  | .remove seg => remove mem idx seg
  | .query _ => idx

/-- The index after a sequence of calls, made in order on segments that stay as they
are in memory. -/
def runCalls (mem : SegmentMemory D) (idx : LineSegmentIndex D) (calls : List IndexCall) :
    LineSegmentIndex D :=
  calls.foldl (perform mem) idx

/-- The number of entries the backing spatial index holds for the segment `seg`. -/
def entryCount (idx : LineSegmentIndex D) (seg : Nat) : Nat :=
  idx.index.entries.countP (fun e => e.2 == seg)

end LineSegmentIndex

/-- Whether a call is `add(seg)` for some segment. -/
def IndexCall.isAdd (c : IndexCall) : Bool :=
  match c with
  | .add _ => true
  | _ => false

/-- The number of `add(segment)` calls in a sequence of calls. -/
def addCount (calls : List IndexCall) : Nat :=
  calls.countP IndexCall.isAdd

/-- The segment `seg` is "currently added" after the calls: it has been added and not
since removed, that is, the latest `add(seg)` or `remove(seg)` among the calls is an
`add(seg)`. -/
def currentlyAdded (calls : List IndexCall) (seg : Nat) : Bool :=
  calls.foldl
    (fun (state : Bool) (c : IndexCall) =>
      match c with
      | .add s => if s = seg then true else state
      | .remove s => if s = seg then false else state
      | .query _ => state)
    false

/-- The sequences of calls in which `add(seg)` is never made for a segment that is
currently added. -/
inductive NoRepeatedAdd : List IndexCall → Prop where
  | none : NoRepeatedAdd []
  | add (calls : List IndexCall) (seg : Nat) :
      NoRepeatedAdd calls → currentlyAdded calls seg = false →
      NoRepeatedAdd (calls ++ [IndexCall.add seg])
  | remove (calls : List IndexCall) (seg : Nat) :
      NoRepeatedAdd calls → NoRepeatedAdd (calls ++ [IndexCall.remove seg])
  | query (calls : List IndexCall) (querySeg : Nat) :
      NoRepeatedAdd calls → NoRepeatedAdd (calls ++ [IndexCall.query querySeg])

/-- The header as GEOS declares it: `enum { X, Y, Z }`, with a chosen level of
paranoia and a chosen value standing for not-a-number. -/
def stdHeader (level : Nat) (nan : Int) : GeomHeader Int where
  PARANOIA_LEVEL := level
  X := 0
  Y := 1
  Z := 2
  DoubleNotANumber := nan
  X_ne_Y := by decide
  X_ne_Z := by decide
  Y_ne_Z := by decide

/-! ## Sample values -/

/-- A sequence of three coordinates. -/
def sampleSequence : DefaultCoordinateSequence Int :=
  ⟨[⟨1, 2, 3⟩, ⟨4, 5, 6⟩, ⟨7, -8, 9⟩]⟩

/-- A store holding one vector, that of `sampleSequence`, at address 0. -/
def sampleStore : VectorStore Int :=
  [sampleSequence.vect]

/-- A memory where the segment at address `a` runs from `(a, a)` to `(a + 1, a + 1)`. -/
def sampleMemory : SegmentMemory Int :=
  fun a => ⟨⟨(a : Int), (a : Int), 0⟩, ⟨(a : Int) + 1, (a : Int) + 1, 0⟩⟩

/-- The memory `sampleMemory` after the owner of segment 1 has moved it away. -/
def movedMemory : SegmentMemory Int :=
  fun a => if a = 1 then ⟨⟨50, 50, 0⟩, ⟨60, 60, 0⟩⟩ else sampleMemory a

/-! # Properties -/

section CoordinateSequenceProofs

open DefaultCoordinateSequence

variable {D : Type}

/-- The subscript yields a coordinate exactly at a non-negative position that the list has. -/
theorem subscript_eq_some_iff (s : DefaultCoordinateSequence D) (pos : Int) (c : Coordinate D) :
    s.subscript pos = some c ↔ 0 ≤ pos ∧ s.vect[pos.toNat]? = some c := by
  unfold subscript
  by_cases h : pos < 0
  · simp [h]
  · simp [h]; intro _; omega

/-- The subscript is undefined exactly outside `[0, size)`. -/
theorem subscript_eq_none_iff (s : DefaultCoordinateSequence D) (pos : Int) :
    s.subscript pos = none ↔ pos < 0 ∨ (s.size : Int) ≤ pos := by
  unfold subscript size
  by_cases h : pos < 0
  · simp [h]
  · simp [h, List.getElem?_eq_none_iff]
    omega

/-- Inside `[0, size)` the subscript yields the coordinate of the list at that position. -/
theorem subscript_inRange (s : DefaultCoordinateSequence D) (pos : Int)
    (h0 : 0 ≤ pos) (h1 : pos < s.size) : ∃ c, s.subscript pos = some c ∧ s.vect[pos.toNat]? = some c := by
  cases h : s.subscript pos with
  | none =>
    rw [subscript_eq_none_iff] at h
    omega
  | some c =>
    exact ⟨c, rfl, ((subscript_eq_some_iff s pos c).1 h).2⟩

/-- The guard never throws for a position inside `[0, size)`. -/
theorem rangeCheckThrows_inRange (H : GeomHeader D) (s : DefaultCoordinateSequence D) (pos : Int)
    (h0 : 0 ≤ pos) (h1 : pos < s.size) : rangeCheckThrows H s pos = false := by
  unfold size at h1
  simp [rangeCheckThrows]
  intro _
  omega

/-- Appending a coordinate does not change what `getAt` returns below the old size. -/
theorem getAt_add_of_lt (H : GeomHeader D) (s : DefaultCoordinateSequence D) (c : Coordinate D)
    (i : Int) (h : i < s.size) : getAt H (s.add c) i = getAt H s i := by
  have hsub : (s.add c).subscript i = s.subscript i := by
    unfold subscript add
    by_cases h0 : i < 0
    · simp [h0]
    · simp only [h0, if_false]
      have : i.toNat < s.vect.length := by unfold size at h; omega
      rw [List.getElem?_append_left this]
  have hchk : rangeCheckThrows H (s.add c) i = rangeCheckThrows H s i := by
    unfold size at h
    simp only [rangeCheckThrows, add, List.length_append, List.length_singleton]
    by_cases h0 : i < 0
    · simp [h0]
    · have h1 : ¬ ((s.vect.length : Int) ≤ i) := by omega
      simp [h0, h1]
      intro _
      omega
  unfold getAt
  rw [hsub, hchk]

/-- Claim C2: for every coordinate sequence `s` and coordinate `c`, after `add(c)` the
size is `size(s) + 1`, `getAt(size - 1)` returns `c`, and `getAt(i)` is what it was for
every `i < size(s)`. -/
theorem C2_add_appends (H : GeomHeader D) (s : DefaultCoordinateSequence D) (c : Coordinate D) :
    (s.add c).size = s.size + 1 ∧
    getAt H (s.add c) (((s.add c).size : Int) - 1) = .ok c ∧
    ∀ i : Int, i < s.size → getAt H (s.add c) i = getAt H s i := by
  refine ⟨by simp [size, add], ?_, fun i h => getAt_add_of_lt H s c i h⟩
  have hsz : (((s.add c).size : Int) - 1) = (s.size : Int) := by simp [size, add]
  rw [hsz]
  have hchk : rangeCheckThrows H (s.add c) (s.size : Int) = false := by
    apply rangeCheckThrows_inRange
    · omega
    · simp [size, add]
  have hsub : (s.add c).subscript (s.size : Int) = some c := by
    rw [subscript_eq_some_iff]
    refine ⟨by omega, ?_⟩
    simp [size, add]
  simp [getAt, hchk, hsub]

/-- In range, `getAt` returns the coordinate under the subscript. -/
theorem getAt_inRange (H : GeomHeader D) (s : DefaultCoordinateSequence D) (pos : Int)
    (h0 : 0 ≤ pos) (h1 : pos < s.size) :
    ∃ c, getAt H s pos = .ok c ∧ s.subscript pos = some c := by
  obtain ⟨c, hc, _⟩ := subscript_inRange s pos h0 h1
  exact ⟨c, by simp [getAt, rangeCheckThrows_inRange H s pos h0 h1, hc], hc⟩

/-- The result of `getAt` depends only on the guard and on the subscript. -/
theorem getAt_congr (H : GeomHeader D) (s t : DefaultCoordinateSequence D) (i j : Int)
    (hchk : rangeCheckThrows H s i = rangeCheckThrows H t j)
    (hsub : s.subscript i = t.subscript j) : getAt H s i = getAt H t j := by
  unfold getAt
  rw [hchk, hsub]

/-- Claim C3: for every coordinate sequence `s` and every `i` with `0 <= i < size(s)`,
`deleteAt(i)` succeeds, reduces the size by exactly 1, leaves `getAt(j)` as it was for
every `j < i`, and makes `getAt(j)` equal to the old `getAt(j + 1)` for every `j` with
`i <= j < size(s) - 1`. -/
theorem C3_deleteAt_shifts (H : GeomHeader D) (s : DefaultCoordinateSequence D) (i : Int)
    (h0 : 0 ≤ i) (h1 : i < s.size) :
    (deleteAt H s i).thrown = none ∧
    (deleteAt H s i).seq.size + 1 = s.size ∧
    (∀ j : Int, j < i → getAt H (deleteAt H s i).seq j = getAt H s j) ∧
    (∀ j : Int, i ≤ j → j < (s.size : Int) - 1 →
      getAt H (deleteAt H s i).seq j = getAt H s (j + 1)) := by
  obtain ⟨c, hc, _⟩ := subscript_inRange s i h0 h1
  have hdel : deleteAt H s i = ⟨none, ⟨s.vect.eraseIdx i.toNat⟩⟩ := by
    simp [deleteAt, rangeCheckThrows_inRange H s i h0 h1, hc]
  have hlt : i.toNat < s.vect.length := by unfold size at h1; omega
  have hlen : (s.vect.eraseIdx i.toNat).length + 1 = s.vect.length := by
    rw [List.length_eraseIdx, if_pos hlt]
    omega
  rw [hdel]
  refine ⟨rfl, by simpa [size] using hlen, ?_, ?_⟩
  · intro j hj
    apply getAt_congr
    · simp only [rangeCheckThrows]
      by_cases hj0 : j < 0
      · simp [hj0]
      · have a1 : ¬ ((s.vect.length : Int) ≤ j) := by unfold size at h1; omega
        have a2 : ¬ (((s.vect.eraseIdx i.toNat).length : Int) ≤ j) := by
          unfold size at h1; omega
        simp [hj0, a1, a2]
    · unfold subscript
      by_cases hj0 : j < 0
      · simp [hj0]
      · simp only [hj0, if_false]
        rw [List.getElem?_eraseIdx_of_lt]
        omega
  · intro j hij hj
    have hj0 : ¬ (j < 0) := by omega
    have hj1 : ¬ (j + 1 < 0) := by omega
    apply getAt_congr
    · simp only [rangeCheckThrows]
      have a1 : ¬ ((s.vect.length : Int) ≤ j + 1) := by unfold size at hj; omega
      have a2 : ¬ (((s.vect.eraseIdx i.toNat).length : Int) ≤ j) := by
        unfold size at hj; omega
      simp [hj0, hj1, a1, a2]
    · unfold subscript
      simp only [hj0, hj1, if_false]
      rw [List.getElem?_eraseIdx_of_ge _ _ _ (by omega)]
      congr 1
      omega

/-- Claim C3 on `sampleSequence`, deleting at position 1. -/
theorem C3_deleteAt_shifts_witness :
    (0 : Int) ≤ 1 ∧ (1 : Int) < sampleSequence.size ∧
    ((deleteAt (stdHeader 1 0) sampleSequence 1).thrown = none ∧
     (deleteAt (stdHeader 1 0) sampleSequence 1).seq.size + 1 = sampleSequence.size ∧
     (∀ j : Int, j < 1 → getAt (stdHeader 1 0) (deleteAt (stdHeader 1 0) sampleSequence 1).seq j =
        getAt (stdHeader 1 0) sampleSequence j) ∧
     (∀ j : Int, 1 ≤ j → j < (sampleSequence.size : Int) - 1 →
        getAt (stdHeader 1 0) (deleteAt (stdHeader 1 0) sampleSequence 1).seq j =
          getAt (stdHeader 1 0) sampleSequence (j + 1))) :=
  ⟨by decide, by decide, C3_deleteAt_shifts (stdHeader 1 0) sampleSequence 1 (by decide) (by decide)⟩

/-- With the check compiled in, the guard throws exactly when the position is out of range. -/
theorem rangeCheckThrows_iff (H : GeomHeader D) (hP : 0 < H.PARANOIA_LEVEL)
    (s : DefaultCoordinateSequence D) (pos : Int) :
    rangeCheckThrows H s pos = true ↔ s.OutOfRange pos := by
  simp [rangeCheckThrows, hP, size, OutOfRange]

/-- In range, an ordinate assignment succeeds and rewrites the coordinate at that position. -/
theorem assignField_inRange (assign : Coordinate D → D → Coordinate D) (index : Int) (value : D)
    (s : DefaultCoordinateSequence D) (h0 : 0 ≤ index) (h1 : index < s.size) :
    ∃ c, s.vect[index.toNat]? = some c ∧
      assignField assign index value s = ⟨none, ⟨s.vect.set index.toNat (assign c value)⟩⟩ := by
  obtain ⟨c, hc, hget⟩ := subscript_inRange s index h0 h1
  exact ⟨c, hget, by simp [assignField, hc]⟩

/-- In range, `setOrdinate` returns normally whatever the axis value. -/
theorem setOrdinate_inRange_thrown (H : GeomHeader D) (s : DefaultCoordinateSequence D)
    (index ordinateIndex : Int) (value : D) (h0 : 0 ≤ index) (h1 : index < s.size) :
    (setOrdinate H s index ordinateIndex value).thrown = none := by
  have size_set : ∀ (t : DefaultCoordinateSequence D) (c : Coordinate D),
      index < t.size → index < (⟨t.vect.set index.toNat c⟩ : DefaultCoordinateSequence D).size := by
    intro t c h
    simpa [size] using h
  have step : ∀ (assign : Coordinate D → D → Coordinate D) (t : DefaultCoordinateSequence D),
      index < t.size → (assignField assign index value t).thrown = none ∧
        index < (assignField assign index value t).seq.size := by
    intro assign t h
    obtain ⟨c, _, hc⟩ := assignField_inRange assign index value t h0 h
    rw [hc]
    exact ⟨rfl, size_set t _ h⟩
  unfold setOrdinate
  rw [rangeCheckThrows_inRange H s index h0 h1]
  simp only [Bool.false_eq_true, if_false]
  have hx := step (fun c v => { c with x := v }) s h1
  have hy := step (fun c v => { c with y := v }) s h1
  have hz := step (fun c v => { c with z := v }) s h1
  have hxy := step (fun c v => { c with y := v }) _ hx.2
  have hxyz := step (fun c v => { c with z := v }) _ hxy.2
  have hyz := step (fun c v => { c with z := v }) _ hy.2
  split
  · simp only [Outcome.andThen, assignX, assignY, assignZ, hx.1, hxy.1, hxyz.1]
  · split
    · simp only [Outcome.andThen, assignY, assignZ, hy.1, hyz.1]
    · split
      · simp only [assignZ, hz.1]
      · rfl

/-- Claim C5: with bounds checking enabled (`PARANOIA_LEVEL > 0`), each of `getAt(pos)`,
`setAt(c, pos)`, `deleteAt(pos)`, `getOrdinate(pos, axis)` and `setOrdinate(pos, axis, v)`
fails with the out-of-range exception if and only if `pos < 0` or `pos >= size`; when
it fails the sequence is left as it was, and when `pos` is in range none of them fails. -/
theorem C5_bounds_check (H : GeomHeader D) (hP : 0 < H.PARANOIA_LEVEL)
    (s : DefaultCoordinateSequence D) (pos axis : Int) (c : Coordinate D) (v : D) :
    (getAt H s pos = .error .IllegalArgumentException ↔ s.OutOfRange pos) ∧
    ((setAt H s c pos).thrown = some .IllegalArgumentException ↔ s.OutOfRange pos) ∧
    ((deleteAt H s pos).thrown = some .IllegalArgumentException ↔ s.OutOfRange pos) ∧
    (getOrdinate H s pos axis = .error .IllegalArgumentException ↔ s.OutOfRange pos) ∧
    ((setOrdinate H s pos axis v).thrown = some .IllegalArgumentException ↔ s.OutOfRange pos) ∧
    (s.OutOfRange pos →
      (setAt H s c pos).seq = s ∧ (deleteAt H s pos).seq = s ∧
      (setOrdinate H s pos axis v).seq = s) ∧
    (¬ s.OutOfRange pos →
      (∃ a, getAt H s pos = .ok a) ∧ (setAt H s c pos).thrown = none ∧
      (deleteAt H s pos).thrown = none ∧ (∃ d, getOrdinate H s pos axis = .ok d) ∧
      (setOrdinate H s pos axis v).thrown = none) := by
  by_cases hr : s.OutOfRange pos
  · have hchk : rangeCheckThrows H s pos = true := (rangeCheckThrows_iff H hP s pos).2 hr
    simp [getAt, setAt, deleteAt, getOrdinate, setOrdinate, hchk, hr]
  · have h0 : 0 ≤ pos := by unfold OutOfRange at hr; omega
    have h1 : pos < s.size := by unfold OutOfRange at hr; omega
    have hchk : rangeCheckThrows H s pos = false := rangeCheckThrows_inRange H s pos h0 h1
    obtain ⟨a, ha, _⟩ := subscript_inRange s pos h0 h1
    have hso := setOrdinate_inRange_thrown H s pos axis v h0 h1
    have hgo : ∃ d, getOrdinate H s pos axis = .ok d := by
      unfold getOrdinate
      simp only [hchk, ha, Bool.false_eq_true, if_false]
      split
      · exact ⟨_, rfl⟩
      · split
        · exact ⟨_, rfl⟩
        · split
          · exact ⟨_, rfl⟩
          · exact ⟨_, rfl⟩
    obtain ⟨d, hd⟩ := hgo
    simp [getAt, setAt, deleteAt, hchk, hr, ha, hso, hd]

/-- Claim C5 on `sampleSequence` at position 3, one past the end, with `PARANOIA_LEVEL = 1`. -/
theorem C5_bounds_check_witness :
    0 < (stdHeader 1 0).PARANOIA_LEVEL ∧
    ((getAt (stdHeader 1 0) sampleSequence 3 = .error .IllegalArgumentException ↔
        sampleSequence.OutOfRange 3) ∧
     ((setAt (stdHeader 1 0) sampleSequence ⟨0, 0, 0⟩ 3).thrown = some .IllegalArgumentException ↔
        sampleSequence.OutOfRange 3) ∧
     ((deleteAt (stdHeader 1 0) sampleSequence 3).thrown = some .IllegalArgumentException ↔
        sampleSequence.OutOfRange 3) ∧
     (getOrdinate (stdHeader 1 0) sampleSequence 3 0 = .error .IllegalArgumentException ↔
        sampleSequence.OutOfRange 3) ∧
     ((setOrdinate (stdHeader 1 0) sampleSequence 3 0 5).thrown =
        some .IllegalArgumentException ↔ sampleSequence.OutOfRange 3) ∧
     (sampleSequence.OutOfRange 3 →
       (setAt (stdHeader 1 0) sampleSequence ⟨0, 0, 0⟩ 3).seq = sampleSequence ∧
       (deleteAt (stdHeader 1 0) sampleSequence 3).seq = sampleSequence ∧
       (setOrdinate (stdHeader 1 0) sampleSequence 3 0 5).seq = sampleSequence) ∧
     (¬ sampleSequence.OutOfRange 3 →
       (∃ a, getAt (stdHeader 1 0) sampleSequence 3 = .ok a) ∧
       (setAt (stdHeader 1 0) sampleSequence ⟨0, 0, 0⟩ 3).thrown = none ∧
       (deleteAt (stdHeader 1 0) sampleSequence 3).thrown = none ∧
       (∃ d, getOrdinate (stdHeader 1 0) sampleSequence 3 0 = .ok d) ∧
       (setOrdinate (stdHeader 1 0) sampleSequence 3 0 5).thrown = none)) :=
  ⟨by decide, C5_bounds_check (stdHeader 1 0) (by decide) sampleSequence 3 0 ⟨0, 0, 0⟩ 5⟩

/-- Claim C6: for every coordinate sequence `s` and every `pos` with `0 <= pos < size(s)`,
`getOrdinate(pos, X)`, `getOrdinate(pos, Y)` and `getOrdinate(pos, Z)` return the `x`,
`y` and `z` fields of `getAt(pos)`, and `getOrdinate(pos, axis)` returns the
not-a-number constant for every axis value other than `X`, `Y` and `Z`. -/
theorem C6_getOrdinate_reads (H : GeomHeader D) (s : DefaultCoordinateSequence D) (pos : Int)
    (h0 : 0 ≤ pos) (h1 : pos < s.size) :
    ∃ c, getAt H s pos = .ok c ∧
      getOrdinate H s pos H.X = .ok c.x ∧
      getOrdinate H s pos H.Y = .ok c.y ∧
      getOrdinate H s pos H.Z = .ok c.z ∧
      ∀ axis : Int, axis ≠ H.X → axis ≠ H.Y → axis ≠ H.Z →
        getOrdinate H s pos axis = .ok H.DoubleNotANumber := by
  obtain ⟨c, hget, hsub⟩ := getAt_inRange H s pos h0 h1
  have hchk := rangeCheckThrows_inRange H s pos h0 h1
  refine ⟨c, hget, ?_, ?_, ?_, ?_⟩
  · simp [getOrdinate, hchk, hsub]
  · simp [getOrdinate, hchk, hsub, H.X_ne_Y.symm]
  · simp [getOrdinate, hchk, hsub, H.X_ne_Z.symm, H.Y_ne_Z.symm]
  · intro axis hx hy hz
    simp [getOrdinate, hchk, hx, hy, hz]

/-- Claim C6 on `sampleSequence` at position 2, without the bounds check. -/
theorem C6_getOrdinate_reads_witness :
    (0 : Int) ≤ 2 ∧ (2 : Int) < sampleSequence.size ∧
    ∃ c, getAt (stdHeader 0 (-1)) sampleSequence 2 = .ok c ∧
      getOrdinate (stdHeader 0 (-1)) sampleSequence 2 (stdHeader 0 (-1)).X = .ok c.x ∧
      getOrdinate (stdHeader 0 (-1)) sampleSequence 2 (stdHeader 0 (-1)).Y = .ok c.y ∧
      getOrdinate (stdHeader 0 (-1)) sampleSequence 2 (stdHeader 0 (-1)).Z = .ok c.z ∧
      ∀ axis : Int, axis ≠ (stdHeader 0 (-1)).X → axis ≠ (stdHeader 0 (-1)).Y →
        axis ≠ (stdHeader 0 (-1)).Z →
        getOrdinate (stdHeader 0 (-1)) sampleSequence 2 axis =
          .ok (stdHeader 0 (-1)).DoubleNotANumber :=
  ⟨by decide, by decide,
    C6_getOrdinate_reads (stdHeader 0 (-1)) sampleSequence 2 (by decide) (by decide)⟩

/-- Claim C7: for every coordinate sequence `s`, every `pos` with `0 <= pos < size(s)`,
every value `v` and every axis value other than `X`, `Y` and `Z`,
`setOrdinate(pos, axis, v)` returns normally and leaves the whole sequence as it was. -/
theorem C7_setOrdinate_other_axis (H : GeomHeader D) (s : DefaultCoordinateSequence D)
    (pos axis : Int) (v : D) (h0 : 0 ≤ pos) (h1 : pos < s.size)
    (hx : axis ≠ H.X) (hy : axis ≠ H.Y) (hz : axis ≠ H.Z) :
    setOrdinate H s pos axis v = ⟨none, s⟩ := by
  simp [setOrdinate, rangeCheckThrows_inRange H s pos h0 h1, hx, hy, hz]

/-- Claim C7 on `sampleSequence` at position 1 with the axis value 3. -/
theorem C7_setOrdinate_other_axis_witness :
    (0 : Int) ≤ 1 ∧ (1 : Int) < sampleSequence.size ∧
    (3 : Int) ≠ (stdHeader 1 0).X ∧ (3 : Int) ≠ (stdHeader 1 0).Y ∧
    (3 : Int) ≠ (stdHeader 1 0).Z ∧
    setOrdinate (stdHeader 1 0) sampleSequence 1 3 42 = ⟨none, sampleSequence⟩ :=
  ⟨by decide, by decide, by decide, by decide, by decide,
    C7_setOrdinate_other_axis (stdHeader 1 0) sampleSequence 1 3 42
      (by decide) (by decide) (by decide) (by decide) (by decide)⟩

/-- Claim C1, evaluated where the code departs from it: on the one-coordinate sequence
`(1, 2, 3)`, `setOrdinate(0, X, 9)` leaves the coordinate `(9, 9, 9)` and not
`(9, 2, 3)`: control falls through from `case X` into `case Y` and `case Z`, so the
`y` and `z` ordinates are overwritten as well, and `getOrdinate(0, Y)` then reads 9. -/
theorem C1_setOrdinate_X_overwrites_y_and_z (H : GeomHeader Int) :
    setOrdinate H ⟨[⟨1, 2, 3⟩]⟩ 0 H.X 9 = ⟨none, ⟨[⟨9, 9, 9⟩]⟩⟩ ∧
    (setOrdinate H ⟨[⟨1, 2, 3⟩]⟩ 0 H.X 9).seq ≠ ⟨[⟨9, 2, 3⟩]⟩ ∧
    getOrdinate H (setOrdinate H ⟨[⟨1, 2, 3⟩]⟩ 0 H.X 9).seq 0 H.Y = .ok 9 := by
  have hchk : ∀ c : Coordinate Int, rangeCheckThrows H ⟨[c]⟩ 0 = false := by
    intro c
    simp [rangeCheckThrows]
  have hset : setOrdinate H ⟨[⟨1, 2, 3⟩]⟩ 0 H.X 9 = ⟨none, ⟨[⟨9, 9, 9⟩]⟩⟩ := by
    simp [setOrdinate, hchk, Outcome.andThen, assignX, assignY, assignZ, assignField, subscript]
  rw [hset]
  refine ⟨rfl, by decide, ?_⟩
  simp [getOrdinate, hchk, subscript, H.X_ne_Y.symm]

/-- The loop entered at index `i` with all remaining iterations left folds the rest of the vector. -/
theorem expandEnvelopeLoop_eq_foldl {E : Type} (expandToInclude : E → Coordinate D → E)
    (s : DefaultCoordinateSequence D) (n : Nat) :
    ∀ (i : Nat) (env : E), i + n = s.vect.length →
      expandEnvelopeLoop expandToInclude s n i env = (s.vect.drop i).foldl expandToInclude env := by
  induction n with
  | zero =>
    intro i env h
    have : s.vect.drop i = [] := List.drop_eq_nil_of_le (by omega)
    simp [expandEnvelopeLoop, this]
  | succ n ih =>
    intro i env h
    have hi : i < s.vect.length := by omega
    rw [List.drop_eq_getElem_cons hi]
    simp only [expandEnvelopeLoop, List.getElem?_eq_getElem hi, List.foldl_cons]
    exact ih (i + 1) _ (by omega)

/-- The loop of `expandEnvelope` is the left fold over the vector. -/
theorem expandEnvelope_eq_foldl {E : Type} (expandToInclude : E → Coordinate D → E)
    (s : DefaultCoordinateSequence D) (env : E) :
    expandEnvelope expandToInclude s env = s.vect.foldl expandToInclude env := by
  unfold expandEnvelope
  rw [expandEnvelopeLoop_eq_foldl expandToInclude s s.size 0 env (by simp [size])]
  simp

/-- A fold of an expanding operation contains the box it started from and every folded coordinate. -/
theorem foldl_expand_contains {E : Type} (expandToInclude : E → Coordinate D → E)
    (contains : E → E → Prop) (covers : E → Coordinate D → Prop)
    (hrefl : ∀ e, contains e e)
    (htrans : ∀ a b c, contains a b → contains b c → contains a c)
    (hmono : ∀ a b p, contains a b → covers b p → covers a p)
    (hgrow : ∀ e p, contains (expandToInclude e p) e)
    (hpoint : ∀ e p, covers (expandToInclude e p) p)
    (l : List (Coordinate D)) :
    ∀ env : E, contains (l.foldl expandToInclude env) env ∧
      ∀ p ∈ l, covers (l.foldl expandToInclude env) p := by
  induction l with
  | nil =>
    intro env
    exact ⟨hrefl env, by simp⟩
  | cons c l ih =>
    intro env
    obtain ⟨h1, h2⟩ := ih (expandToInclude env c)
    refine ⟨htrans _ _ _ h1 (hgrow env c), ?_⟩
    intro p hp
    rcases List.mem_cons.1 hp with rfl | hp
    · exact hmono _ _ _ h1 (hpoint env p)
    · exact h2 p hp

/-- Claim C8: for every coordinate sequence `s` and every envelope `env`,
`expandEnvelope(env)` yields the fold of `expandToInclude` over the coordinates of `s`
in order; hence, `expandToInclude` returning a box that contains the box it was given
and the coordinate it was given, the result contains `env` and every coordinate of
`s`; and an empty sequence leaves `env` as it was.  (The function returns the envelope
only: the sequence is not written.) -/
theorem C8_expandEnvelope_folds {E : Type} (expandToInclude : E → Coordinate D → E)
    (contains : E → E → Prop) (covers : E → Coordinate D → Prop)
    (hrefl : ∀ e, contains e e)
    (htrans : ∀ a b c, contains a b → contains b c → contains a c)
    (hmono : ∀ a b p, contains a b → covers b p → covers a p)
    (hgrow : ∀ e p, contains (expandToInclude e p) e)
    (hpoint : ∀ e p, covers (expandToInclude e p) p)
    (s : DefaultCoordinateSequence D) (env : E) :
    expandEnvelope expandToInclude s env = s.vect.foldl expandToInclude env ∧
    contains (expandEnvelope expandToInclude s env) env ∧
    (∀ c ∈ s.vect, covers (expandEnvelope expandToInclude s env) c) ∧
    (s.size = 0 → expandEnvelope expandToInclude s env = env) := by
  have hfold := expandEnvelope_eq_foldl expandToInclude s env
  obtain ⟨h1, h2⟩ :=
    foldl_expand_contains expandToInclude contains covers hrefl htrans hmono hgrow hpoint
      s.vect env
  rw [hfold]
  refine ⟨rfl, h1, h2, ?_⟩
  intro h0
  have : s.vect = [] := List.length_eq_zero.1 h0
  simp [this]

end CoordinateSequenceProofs

section EnvelopeProofs

variable {D : Type} [LinearOrder D]

/-- A box contains itself. -/
theorem Envelope.contains_refl (e : Envelope D) : e.contains e :=
  ⟨le_refl _, le_refl _, le_refl _, le_refl _⟩

/-- Containment of boxes is transitive. -/
theorem Envelope.contains_trans (a b c : Envelope D) (h1 : a.contains b) (h2 : b.contains c) :
    a.contains c :=
  ⟨le_trans h1.1 h2.1, le_trans h2.2.1 h1.2.1, le_trans h1.2.2.1 h2.2.2.1,
    le_trans h2.2.2.2 h1.2.2.2⟩

/-- A box containing a box that holds a coordinate holds the coordinate. -/
theorem Envelope.covers_of_contains (a b : Envelope D) (p : Coordinate D)
    (h1 : a.contains b) (h2 : b.covers p) : a.covers p :=
  ⟨le_trans h1.1 h2.1, le_trans h2.2.1 h1.2.1, le_trans h1.2.2.1 h2.2.2.1,
    le_trans h2.2.2.2 h1.2.2.2⟩

/-- The expanded box contains the box it was expanded from. -/
theorem Envelope.expandToInclude_contains (e : Envelope D) (p : Coordinate D) :
    (e.expandToInclude p).contains e :=
  ⟨min_le_left _ _, le_max_left _ _, min_le_left _ _, le_max_left _ _⟩

/-- The expanded box holds the coordinate it was expanded by. -/
theorem Envelope.expandToInclude_covers (e : Envelope D) (p : Coordinate D) :
    (e.expandToInclude p).covers p :=
  ⟨min_le_right _ _, le_max_right _ _, min_le_right _ _, le_max_right _ _⟩

/-- The bounding box of two points intersects itself. -/
theorem Envelope.intersects_ofPoints_self (p0 p1 : Coordinate D) :
    (Envelope.ofPoints p0 p1).intersects (Envelope.ofPoints p0 p1) = true := by
  simp [Envelope.intersects, Envelope.ofPoints]

/-- Claim C8 on `sampleSequence`, with the bounding box of the spec for envelope. -/
theorem C8_expandEnvelope_folds_witness :
    (∀ e : Envelope Int, e.contains e) ∧
    (∀ a b c : Envelope Int, a.contains b → b.contains c → a.contains c) ∧
    (∀ (a b : Envelope Int) (p : Coordinate Int), a.contains b → b.covers p → a.covers p) ∧
    (∀ (e : Envelope Int) (p : Coordinate Int), (e.expandToInclude p).contains e) ∧
    (∀ (e : Envelope Int) (p : Coordinate Int), (e.expandToInclude p).covers p) ∧
    (sampleSequence.expandEnvelope Envelope.expandToInclude ⟨0, 0, 0, 0⟩ =
        sampleSequence.vect.foldl Envelope.expandToInclude ⟨0, 0, 0, 0⟩ ∧
     (sampleSequence.expandEnvelope Envelope.expandToInclude ⟨0, 0, 0, 0⟩).contains
        ⟨0, 0, 0, 0⟩ ∧
     (∀ c ∈ sampleSequence.vect,
        (sampleSequence.expandEnvelope Envelope.expandToInclude ⟨0, 0, 0, 0⟩).covers c) ∧
     (sampleSequence.size = 0 →
        sampleSequence.expandEnvelope Envelope.expandToInclude ⟨0, 0, 0, 0⟩ = ⟨0, 0, 0, 0⟩)) :=
  ⟨Envelope.contains_refl, Envelope.contains_trans, Envelope.covers_of_contains,
    Envelope.expandToInclude_contains, Envelope.expandToInclude_covers,
    C8_expandEnvelope_folds Envelope.expandToInclude Envelope.contains Envelope.covers
      Envelope.contains_refl Envelope.contains_trans Envelope.covers_of_contains
      Envelope.expandToInclude_contains Envelope.expandToInclude_covers
      sampleSequence ⟨0, 0, 0, 0⟩⟩

end EnvelopeProofs

section CloneProofs

open SequenceObject

variable {D : Type}

/-- A mutating call writes only the vector of the object it is made on. -/
theorem call_frame (H : GeomHeader D) (o : SequenceObject) (store : VectorStore D)
    (m : Mutation D) (p : Nat) (hp : p ≠ o.vect) : (call H o store m)[p]? = store[p]? := by
  unfold call
  split
  · rw [List.getElem?_set_ne (Ne.symm hp)]
  · rfl

/-- A series of mutating calls writes only the vector of the object it is made on. -/
theorem callAll_frame (H : GeomHeader D) (o : SequenceObject) (ms : List (Mutation D))
    (p : Nat) (hp : p ≠ o.vect) :
    ∀ store : VectorStore D, (callAll H o store ms)[p]? = store[p]? := by
  induction ms with
  | nil => intro store; rfl
  | cons m ms ih =>
    intro store
    have := ih (call H o store m)
    simp only [callAll, List.foldl_cons] at this ⊢
    rw [this, call_frame H o store m p hp]

/-- Claim C4: for every sequence object `o`, `clone()` returns an object holding the
same coordinates in the same order (hence the same size) and leaves `o` as it was;
after any series of `add`, `setAt`, `deleteAt`, `setOrdinate` and `setPoints` calls on
the clone, `o` still holds what it held, and after any such series on `o`, the clone
still holds what it held. -/
theorem C4_clone_independent (H : GeomHeader D) (store : VectorStore D) (o : SequenceObject)
    (hvalid : o.vect < store.length) :
    ∃ store2 copy s, clone store o = some (store2, copy) ∧
      o.contents store = some s ∧ copy.contents store2 = some s ∧ o.contents store2 = some s ∧
      (∀ ms : List (Mutation D), o.contents (callAll H copy store2 ms) = some s) ∧
      (∀ ms : List (Mutation D), copy.contents (callAll H o store2 ms) = some s) := by
  have hget : store[o.vect]? = some store[o.vect] := List.getElem?_eq_getElem hvalid
  have hne : o.vect ≠ store.length := Nat.ne_of_lt hvalid
  have hold : (store ++ [store[o.vect]])[o.vect]? = some store[o.vect] := by
    rw [List.getElem?_append_left hvalid, hget]
  have hnew : (store ++ [store[o.vect]])[store.length]? = some store[o.vect] := by
    simp
  refine ⟨store ++ [store[o.vect]], ⟨store.length⟩, ⟨store[o.vect]⟩, ?_, ?_, ?_, ?_, ?_, ?_⟩
  · simp [clone, copyConstruct, hget]
  · simp [contents, hget]
  · simp [contents]
  · simp [contents, hold]
  · intro ms
    simp only [contents]
    rw [callAll_frame H ⟨store.length⟩ ms o.vect hne, hold]
    rfl
  · intro ms
    simp only [contents]
    rw [callAll_frame H o ms store.length (Ne.symm hne), hnew]
    rfl

/-- Claim C4 on the object at address 0 of `sampleStore`. -/
theorem C4_clone_independent_witness :
    (⟨0⟩ : SequenceObject).vect < sampleStore.length ∧
    ∃ store2 copy s, clone sampleStore ⟨0⟩ = some (store2, copy) ∧
      (⟨0⟩ : SequenceObject).contents sampleStore = some s ∧
      copy.contents store2 = some s ∧
      (⟨0⟩ : SequenceObject).contents store2 = some s ∧
      (∀ ms : List (Mutation Int),
        (⟨0⟩ : SequenceObject).contents (callAll (stdHeader 1 0) copy store2 ms) = some s) ∧
      (∀ ms : List (Mutation Int),
        copy.contents (callAll (stdHeader 1 0) ⟨0⟩ store2 ms) = some s) :=
  ⟨by decide, C4_clone_independent (stdHeader 1 0) sampleStore ⟨0⟩ (by decide)⟩

end CloneProofs

section LineSegmentIndexProofs

open LineSegmentIndex

variable {D : Type} [LinearOrder D]

/-- Visiting a list of delivered items appends those that pass the envelope test, in order. -/
theorem foldl_visitItem (mem : SegmentMemory D) (querySeg : Nat) (l : List Nat) :
    ∀ items : List Nat, l.foldl (visitItem mem querySeg) items =
      items ++ l.filter (fun item => Envelope.intersectsPoints (mem item).p0 (mem item).p1
        (mem querySeg).p0 (mem querySeg).p1) := by
  induction l with
  | nil => intro items; simp
  | cons a l ih =>
    intro items
    rw [List.foldl_cons, ih]
    by_cases h : Envelope.intersectsPoints (mem a).p0 (mem a).p1
        (mem querySeg).p0 (mem querySeg).p1 = true
    · simp [visitItem, List.filter_cons, h]
    · simp [visitItem, List.filter_cons, h]

/-- A segment is in the result of `query` exactly when one of its entries is delivered and
its current envelope intersects that of the query segment. -/
theorem mem_query_iff (candidate : Envelope D → Envelope D → Bool) (mem : SegmentMemory D)
    (idx : LineSegmentIndex D) (querySeg item : Nat) :
    item ∈ query candidate mem idx querySeg ↔
      (∃ box, (box, item) ∈ idx.index.entries ∧
        candidate box (Envelope.ofPoints (mem querySeg).p0 (mem querySeg).p1) = true) ∧
      Envelope.intersectsPoints (mem item).p0 (mem item).p1
        (mem querySeg).p0 (mem querySeg).p1 = true := by
  unfold query
  simp only [foldl_visitItem, List.nil_append, List.mem_filter, SpatialIndex.query,
    List.mem_map, Prod.exists, exists_eq_right]

/-- Adding a list of segments appends one entry per segment, keyed by its envelope. -/
theorem entries_addLine (mem : SegmentMemory D) (segments : List Nat) :
    ∀ idx : LineSegmentIndex D, (addLine mem idx segments).index.entries =
      idx.index.entries ++
        segments.map (fun s => (Envelope.ofPoints (mem s).p0 (mem s).p1, s)) := by
  induction segments with
  | nil => intro idx; simp [addLine]
  | cons a l ih =>
    intro idx
    have := ih (add mem idx a)
    simp only [addLine, List.foldl_cons] at this ⊢
    rw [this]
    simp [add, SpatialIndex.insert]

/-- Claim C9: for every list of segments added to an initially empty `LineSegmentIndex`,
and a backing spatial index whose query has no false negatives, `query(s)` with any
added segment `s` as the probe returns a result that contains `s`. -/
theorem C9_query_finds_added (candidate : Envelope D → Envelope D → Bool)
    (hcomplete : SpatialIndex.NoFalseNegatives candidate)
    (mem : SegmentMemory D) (segments : List Nat) (s : Nat) (hs : s ∈ segments) :
    s ∈ query candidate mem (addLine mem empty segments) s := by
  rw [mem_query_iff]
  refine ⟨⟨Envelope.ofPoints (mem s).p0 (mem s).p1, ?_, ?_⟩, ?_⟩
  · rw [entries_addLine]
    exact List.mem_append_right _ (List.mem_map.2 ⟨s, hs, rfl⟩)
  · exact hcomplete _ _ (Envelope.intersects_ofPoints_self _ _)
  · exact Envelope.intersects_ofPoints_self _ _

/-- Claim C9 on the segments 1, 2, 3, 5 of `sampleMemory`, probed with segment 2, for a
backing index that delivers every entry. -/
theorem C9_query_finds_added_witness :
    SpatialIndex.NoFalseNegatives (fun _ _ : Envelope Int => true) ∧
    2 ∈ [1, 2, 3, 5] ∧
    2 ∈ query (fun _ _ => true) sampleMemory (addLine sampleMemory empty [1, 2, 3, 5]) 2 :=
  ⟨fun _ _ _ => rfl, by decide,
    C9_query_finds_added (fun _ _ => true) (fun _ _ _ => rfl) sampleMemory [1, 2, 3, 5] 2
      (by decide)⟩

/-- Claim C10: for every set of segments added to a `LineSegmentIndex` and every
segment `s` of the set whose endpoints are at `remove(s)` what they were when it was
added, after `remove(s)` no query, whatever the probe, returns `s`, and every other
added segment is returned by every query that returned it before the removal. -/
theorem C10_remove_then_query (candidate : Envelope D → Envelope D → Bool)
    (mem memR : SegmentMemory D) (segments : List Nat) (hset : segments.Nodup)
    (s : Nat) (hs : s ∈ segments) (hsame : memR s = mem s) :
    (∀ (memQ : SegmentMemory D) (q : Nat),
      s ∉ query candidate memQ (remove memR (addLine mem empty segments) s) q) ∧
    (∀ t ∈ segments, t ≠ s → ∀ (memQ : SegmentMemory D) (q : Nat),
      t ∈ query candidate memQ (addLine mem empty segments) q →
      t ∈ query candidate memQ (remove memR (addLine mem empty segments) s) q) := by
  have hentries : (addLine mem empty segments).index.entries =
      segments.map (fun s => (Envelope.ofPoints (mem s).p0 (mem s).p1, s)) := by
    rw [entries_addLine]
    simp [empty]
  have hnodup : (addLine mem empty segments).index.entries.Nodup := by
    rw [hentries]
    exact hset.map (fun a b h => (Prod.mk.inj h).2)
  have hrem : ∀ e : Envelope D × Nat,
      e ∈ (remove memR (addLine mem empty segments) s).index.entries ↔
        e ≠ (Envelope.ofPoints (mem s).p0 (mem s).p1, s) ∧
          e ∈ (addLine mem empty segments).index.entries := by
    intro e
    simp only [remove, SpatialIndex.remove, hsame]
    exact hnodup.mem_erase_iff
  constructor
  · intro memQ q hq
    rw [mem_query_iff] at hq
    obtain ⟨⟨box, hbox, _⟩, _⟩ := hq
    rw [hrem] at hbox
    obtain ⟨hne, hin⟩ := hbox
    rw [hentries, List.mem_map] at hin
    obtain ⟨a, _, ha⟩ := hin
    obtain ⟨h1, h2⟩ := Prod.mk.inj ha
    subst h2
    exact hne (by rw [← h1])
  · intro t _ hts memQ q hq
    rw [mem_query_iff] at hq ⊢
    obtain ⟨⟨box, hbox, hcand⟩, hint⟩ := hq
    refine ⟨⟨box, ?_, hcand⟩, hint⟩
    rw [hrem]
    exact ⟨fun h => hts (Prod.mk.inj h).2, hbox⟩

/-- Claim C10 on the segments 1, 2, 3, 5 of `sampleMemory`: segment 2 is removed after
segment 1 has been moved, for a backing index that tests exact box overlap. -/
theorem C10_remove_then_query_witness :
    [1, 2, 3, 5].Nodup ∧ 2 ∈ [1, 2, 3, 5] ∧ movedMemory 2 = sampleMemory 2 ∧
    ((∀ (memQ : SegmentMemory Int) (q : Nat),
      2 ∉ query Envelope.intersects memQ
        (remove movedMemory (addLine sampleMemory empty [1, 2, 3, 5]) 2) q) ∧
     (∀ t ∈ [1, 2, 3, 5], t ≠ 2 → ∀ (memQ : SegmentMemory Int) (q : Nat),
      t ∈ query Envelope.intersects memQ (addLine sampleMemory empty [1, 2, 3, 5]) q →
      t ∈ query Envelope.intersects memQ
        (remove movedMemory (addLine sampleMemory empty [1, 2, 3, 5]) 2) q)) :=
  ⟨by decide, by decide, by decide,
    C10_remove_then_query Envelope.intersects sampleMemory movedMemory [1, 2, 3, 5]
      (by decide) 2 (by decide) (by decide)⟩

end LineSegmentIndexProofs

section ConstructorProofs

open DefaultCoordinateSequence

variable {D : Type}

/-- Claim C18: for every coordinate sequence `s`, every `pos` with `0 <= pos < size(s)`
and every coordinate `c`, `setAt(c, pos)` returns normally, after it `getAt(pos)`
returns `c`, `getAt(j)` is what it was for every `j != pos`, and the size is what it
was. -/
theorem C18_setAt_overwrites (H : GeomHeader D) (s : DefaultCoordinateSequence D)
    (c : Coordinate D) (pos : Int) (h0 : 0 ≤ pos) (h1 : pos < s.size) :
    (setAt H s c pos).thrown = none ∧
    getAt H (setAt H s c pos).seq pos = .ok c ∧
    (∀ j : Int, j ≠ pos → getAt H (setAt H s c pos).seq j = getAt H s j) ∧
    (setAt H s c pos).seq.size = s.size := by
  obtain ⟨a, ha, _⟩ := subscript_inRange s pos h0 h1
  have hset : setAt H s c pos = ⟨none, ⟨s.vect.set pos.toNat c⟩⟩ := by
    simp [setAt, rangeCheckThrows_inRange H s pos h0 h1, ha]
  have hlt : pos.toNat < s.vect.length := by unfold size at h1; omega
  rw [hset]
  refine ⟨rfl, ?_, ?_, by simp [size]⟩
  · have hchk : rangeCheckThrows H ⟨s.vect.set pos.toNat c⟩ pos = false :=
      rangeCheckThrows_inRange H _ pos h0 (by simpa [size] using h1)
    have hsub : (⟨s.vect.set pos.toNat c⟩ : DefaultCoordinateSequence D).subscript pos =
        some c := by
      rw [subscript_eq_some_iff]
      exact ⟨h0, by simp [hlt]⟩
    simp [getAt, hchk, hsub]
  · intro j hj
    apply getAt_congr
    · simp [rangeCheckThrows]
    · unfold subscript
      by_cases hj0 : j < 0
      · simp [hj0]
      · simp only [hj0, if_false]
        rw [List.getElem?_set_ne]
        omega

/-- Claim C18 on `sampleSequence`, overwriting position 1. -/
theorem C18_setAt_overwrites_witness :
    (0 : Int) ≤ 1 ∧ (1 : Int) < sampleSequence.size ∧
    ((setAt (stdHeader 1 0) sampleSequence ⟨0, 0, 0⟩ 1).thrown = none ∧
     getAt (stdHeader 1 0) (setAt (stdHeader 1 0) sampleSequence ⟨0, 0, 0⟩ 1).seq 1 =
        .ok ⟨0, 0, 0⟩ ∧
     (∀ j : Int, j ≠ 1 →
        getAt (stdHeader 1 0) (setAt (stdHeader 1 0) sampleSequence ⟨0, 0, 0⟩ 1).seq j =
          getAt (stdHeader 1 0) sampleSequence j) ∧
     (setAt (stdHeader 1 0) sampleSequence ⟨0, 0, 0⟩ 1).seq.size = sampleSequence.size) :=
  ⟨by decide, by decide,
    C18_setAt_overwrites (stdHeader 1 0) sampleSequence ⟨0, 0, 0⟩ 1 (by decide) (by decide)⟩

/-- Claim C17: the default constructor builds an empty sequence (`isEmpty()` true,
`getSize()` 0); the constructor with `n >= 0` slots builds a sequence with
`getSize() = n` whose every slot holds the default-constructed coordinate; the
adopting constructor builds a sequence with exactly the coordinates of the buffer,
in order, and an empty sequence from a null buffer; and for every sequence
`isEmpty()` is true exactly when `getSize() = 0`. -/
theorem C17_constructors (H : GeomHeader D) (defaultCoordinate : Coordinate D) :
    ((construct : DefaultCoordinateSequence D).isEmpty = true ∧
      (construct : DefaultCoordinateSequence D).getSize = 0) ∧
    (∀ n : Int, 0 ≤ n → ∃ s, constructSized defaultCoordinate n = some s ∧ s.getSize = n ∧
      ∀ i : Int, 0 ≤ i → i < n → getAt H s i = .ok defaultCoordinate) ∧
    (∀ v : List (Coordinate D), (constructAdopting (some v)).vect = v) ∧
    ((constructAdopting none : DefaultCoordinateSequence D).isEmpty = true ∧
      (constructAdopting none : DefaultCoordinateSequence D).getSize = 0) ∧
    (∀ s : DefaultCoordinateSequence D, s.isEmpty = true ↔ s.getSize = 0) := by
  refine ⟨⟨rfl, rfl⟩, ?_, fun v => rfl, ⟨rfl, rfl⟩, ?_⟩
  · intro n hn
    refine ⟨⟨List.replicate n.toNat defaultCoordinate⟩, ?_, ?_, ?_⟩
    · have : ¬ n < 0 := by omega
      simp [constructSized, this]
    · simp only [getSize, List.length_replicate]
      omega
    · intro i hi0 hin
      have hsize : i < (⟨List.replicate n.toNat defaultCoordinate⟩ :
          DefaultCoordinateSequence D).size := by
        simp only [size, List.length_replicate]
        omega
      obtain ⟨c, hget, hsub⟩ := getAt_inRange H _ i hi0 hsize
      rw [hget]
      have hc := ((subscript_eq_some_iff _ i c).1 hsub).2
      have hmem : c ∈ List.replicate n.toNat defaultCoordinate :=
        List.getElem?_mem hc
      rw [(List.mem_replicate.1 hmem).2]
  · intro s
    cases hv : s.vect with
    | nil => simp [isEmpty, getSize, hv]
    | cons a l =>
      simp only [isEmpty, getSize, hv, List.isEmpty_cons, List.length_cons]
      constructor
      · intro h
        cases h
      · intro h
        omega

end ConstructorProofs

section IndexCallProofs

open LineSegmentIndex

variable {D : Type} [LinearOrder D]

/-- Claim C11: for every index state and every probe segment `q`, `query(q)` returns
exactly the candidates delivered by the backing spatial index for the envelope of
`q` whose own envelope (the bounding box of their two endpoints) intersects the
envelope of `q`, in the order delivered: every returned segment's envelope
intersects that of `q`, and no delivered candidate with an intersecting envelope is
dropped. -/
theorem C11_query_filters_delivered (candidate : Envelope D → Envelope D → Bool)
    (mem : SegmentMemory D) (idx : LineSegmentIndex D) (q : Nat) :
    query candidate mem idx q =
      (idx.index.query candidate (Envelope.ofPoints (mem q).p0 (mem q).p1)).filter
        (fun item => (Envelope.ofPoints (mem item).p0 (mem item).p1).intersects
          (Envelope.ofPoints (mem q).p0 (mem q).p1)) ∧
    (∀ item ∈ query candidate mem idx q,
      (Envelope.ofPoints (mem item).p0 (mem item).p1).intersects
        (Envelope.ofPoints (mem q).p0 (mem q).p1) = true) ∧
    (∀ item ∈ idx.index.query candidate (Envelope.ofPoints (mem q).p0 (mem q).p1),
      (Envelope.ofPoints (mem item).p0 (mem item).p1).intersects
        (Envelope.ofPoints (mem q).p0 (mem q).p1) = true →
      item ∈ query candidate mem idx q) := by
  have heq : query candidate mem idx q =
      (idx.index.query candidate (Envelope.ofPoints (mem q).p0 (mem q).p1)).filter
        (fun item => (Envelope.ofPoints (mem item).p0 (mem item).p1).intersects
          (Envelope.ofPoints (mem q).p0 (mem q).p1)) := by
    unfold query
    rw [foldl_visitItem]
    simp [Envelope.intersectsPoints]
  rw [heq]
  refine ⟨rfl, ?_, ?_⟩
  · intro item hitem
    exact (List.mem_filter.1 hitem).2
  · intro item hitem hint
    exact List.mem_filter.2 ⟨hitem, hint⟩

/-- The index after a sequence of calls and one more call. -/
theorem runCalls_append (mem : SegmentMemory D) (idx : LineSegmentIndex D)
    (calls : List IndexCall) (c : IndexCall) :
    runCalls mem idx (calls ++ [c]) = perform mem (runCalls mem idx calls) c := by
  simp [runCalls, List.foldl_append]

/-- Erasing an element that is in the list and is counted lowers the count by one. -/
theorem countP_erase_of_mem {α : Type} [BEq α] [LawfulBEq α] (p : α → Bool) (l : List α)
    (a : α) (ha : a ∈ l) (hp : p a = true) : (l.erase a).countP p + 1 = l.countP p := by
  induction l with
  | nil => simp at ha
  | cons b l ih =>
    rw [List.erase_cons]
    by_cases hb : (b == a) = true
    · have : b = a := eq_of_beq hb
      subst this
      simp [hp]
    · have hne : b ≠ a := fun h => hb (by simp [h])
      have hal : a ∈ l := by
        rcases List.mem_cons.1 ha with h | h
        · exact absurd h.symm hne
        · exact h
      have hb2 : (b == a) = false := by simpa using hb
      simp only [hb2, Bool.false_eq_true, ↓reduceIte, List.countP_cons]
      have := ih hal
      omega

/-- Erasing an element that is not counted leaves the count as it was. -/
theorem countP_erase_of_false {α : Type} [BEq α] [LawfulBEq α] (p : α → Bool) (l : List α)
    (a : α) (hp : p a = false) : (l.erase a).countP p = l.countP p := by
  induction l with
  | nil => simp
  | cons b l ih =>
    rw [List.erase_cons]
    by_cases hb : (b == a) = true
    · have : b = a := eq_of_beq hb
      subst this
      simp [hp]
    · have hb2 : (b == a) = false := by simpa using hb
      simp only [hb2, Bool.false_eq_true, ↓reduceIte, List.countP_cons, ih]

/-- Erasing an element lowers a count by at most one. -/
theorem countP_le_erase {α : Type} [BEq α] [LawfulBEq α] (p : α → Bool) (l : List α) (a : α) :
    l.countP p ≤ (l.erase a).countP p + 1 := by
  induction l with
  | nil => simp
  | cons b l ih =>
    rw [List.erase_cons]
    by_cases hb : (b == a) = true
    · simp only [hb, if_true, List.countP_cons]
      split <;> omega
    · have hb2 : (b == a) = false := by simpa using hb
      simp only [hb2, Bool.false_eq_true, ↓reduceIte, List.countP_cons]
      omega

/-- Removing a segment whose entry is in the index lowers its entry count by one. -/
theorem entryCount_remove_of_mem (mem : SegmentMemory D) (idx : LineSegmentIndex D) (s : Nat)
    (hin : (Envelope.ofPoints (mem s).p0 (mem s).p1, s) ∈ idx.index.entries) :
    entryCount (remove mem idx s) s + 1 = entryCount idx s := by
  unfold entryCount remove SpatialIndex.remove
  exact countP_erase_of_mem _ _ _ hin (by simp)

/-- Removing a segment leaves the entry counts of the other segments as they were. -/
theorem entryCount_remove_of_ne (mem : SegmentMemory D) (idx : LineSegmentIndex D)
    (s seg : Nat) (h : s ≠ seg) :
    entryCount (remove mem idx s) seg = entryCount idx seg := by
  unfold entryCount remove SpatialIndex.remove
  exact countP_erase_of_false _ _ _ (by simpa using h)

/-- Removing a segment whose entry is not in the index leaves the index as it was. -/
theorem remove_of_not_mem (mem : SegmentMemory D) (idx : LineSegmentIndex D) (s : Nat)
    (hin : (Envelope.ofPoints (mem s).p0 (mem s).p1, s) ∉ idx.index.entries) :
    remove mem idx s = idx := by
  have h : idx.index.entries.erase (Envelope.ofPoints (mem s).p0 (mem s).p1, s) =
      idx.index.entries := List.erase_of_not_mem hin
  simp only [remove, SpatialIndex.remove, h]

/-- One removal lowers an entry count by at most one. -/
theorem entryCount_le_remove (mem : SegmentMemory D) (idx : LineSegmentIndex D) (s seg : Nat) :
    entryCount idx seg ≤ entryCount (remove mem idx s) seg + 1 := by
  unfold entryCount remove SpatialIndex.remove
  exact countP_le_erase _ _ _

/-- Every entry of an index built by calls from the empty index is keyed by the
envelope of its own segment. -/
theorem entries_keyed (mem : SegmentMemory D) (calls : List IndexCall) :
    ∀ e ∈ (runCalls mem empty calls).index.entries,
      e.1 = Envelope.ofPoints (mem e.2).p0 (mem e.2).p1 := by
  induction calls using List.reverseRecOn with
  | nil =>
    intro e he
    simp [runCalls, empty] at he
  | append_singleton calls c ih =>
    intro e he
    rw [runCalls_append] at he
    cases c with
    | add seg =>
      simp only [perform, add, SpatialIndex.insert, List.mem_append, List.mem_singleton] at he
      rcases he with he | he
      · exact ih e he
      · rw [he]
    | remove seg =>
      simp only [perform, remove, SpatialIndex.remove] at he
      exact ih e (List.mem_of_mem_erase he)
    | query q =>
      exact ih e he

/-- The state "currently added" after one more call. -/
theorem currentlyAdded_append (calls : List IndexCall) (c : IndexCall) (seg : Nat) :
    currentlyAdded (calls ++ [c]) seg =
      match c with
      | .add s => if s = seg then true else currentlyAdded calls seg
      | .remove s => if s = seg then false else currentlyAdded calls seg
      | .query _ => currentlyAdded calls seg := by
  simp only [currentlyAdded, List.foldl_append, List.foldl_cons, List.foldl_nil]

/-- When no segment is added while it is currently added, the index holds one entry
for each currently added segment and none for the others. -/
theorem entryCount_of_noRepeatedAdd (mem : SegmentMemory D) (calls : List IndexCall)
    (hcalls : NoRepeatedAdd calls) :
    ∀ seg : Nat, entryCount (runCalls mem empty calls) seg =
      if currentlyAdded calls seg = true then 1 else 0 := by
  induction hcalls with
  | none =>
    intro seg
    simp [runCalls, empty, entryCount, currentlyAdded]
  | add calls s _ hs ih =>
    intro seg
    rw [runCalls_append, currentlyAdded_append]
    simp only [perform, add, SpatialIndex.insert, entryCount, List.countP_append,
      List.countP_cons, List.countP_nil]
    have hseg := ih seg
    simp only [entryCount] at hseg
    by_cases h : s = seg
    · subst h
      rw [hseg, hs]
      simp
    · rw [hseg]
      simp [h]
  | remove calls s _ ih =>
    intro seg
    rw [runCalls_append, currentlyAdded_append]
    simp only [perform]
    by_cases h : s = seg
    · subst h
      simp only [if_true, Bool.false_eq_true, if_false]
      have hs := ih s
      by_cases hin : (Envelope.ofPoints (mem s).p0 (mem s).p1, s) ∈
          (runCalls mem empty calls).index.entries
      · have h1 := entryCount_remove_of_mem mem (runCalls mem empty calls) s hin
        have : entryCount (runCalls mem empty calls) s ≤ 1 := by
          rw [hs]
          split <;> omega
        omega
      · rw [remove_of_not_mem mem _ s hin]
        simp only [entryCount]
        rw [List.countP_eq_zero]
        intro e he hes
        have hkey := entries_keyed mem calls e he
        have hes2 : e.2 = s := by simpa using hes
        apply hin
        have : e = (Envelope.ofPoints (mem s).p0 (mem s).p1, s) := by
          rw [← hes2, ← hkey]
        rw [← this]
        exact he
    · rw [entryCount_remove_of_ne mem _ s seg h, ih seg]
      simp [h]
  | query calls q _ ih =>
    intro seg
    rw [runCalls_append, currentlyAdded_append]
    exact ih seg

/-- Claim C12, as stated, fails when a segment is added twice: after `add(1)`,
`add(1)` on an empty index, segment 1 is currently added and the backing spatial
index holds two entries for it, not one. -/
theorem C12_counterexample_added_twice :
    currentlyAdded [IndexCall.add 1, IndexCall.add 1] 1 = true ∧
    entryCount (runCalls sampleMemory empty [IndexCall.add 1, IndexCall.add 1]) 1 = 2 ∧
    ¬ (∀ (calls : List IndexCall) (seg : Nat), currentlyAdded calls seg = true →
        entryCount (runCalls sampleMemory empty calls) seg = 1) := by
  refine ⟨by decide, by decide, ?_⟩
  intro h
  have h2 := h [IndexCall.add 1, IndexCall.add 1] 1 (by decide)
  revert h2
  decide

/-- Claim C12, amended: after every sequence of add, remove and query calls in which
`add(s)` is never made for a segment that is currently added, every segment that is
currently added (added and not since removed) has exactly one entry in the backing
spatial index, and that entry is keyed by the envelope of the segment's own two
endpoints. -/
theorem C12_one_entry_per_added_segment (mem : SegmentMemory D) (calls : List IndexCall)
    (hcalls : NoRepeatedAdd calls) (seg : Nat) (hseg : currentlyAdded calls seg = true) :
    entryCount (runCalls mem empty calls) seg = 1 ∧
    ∀ e ∈ (runCalls mem empty calls).index.entries, e.2 = seg →
      e.1 = Envelope.ofPoints (mem seg).p0 (mem seg).p1 := by
  refine ⟨?_, ?_⟩
  · rw [entryCount_of_noRepeatedAdd mem calls hcalls seg, hseg]
    simp
  · intro e he hes
    rw [← hes]
    exact entries_keyed mem calls e he

/-- Claim C12, amended, on the calls `add(1)`, `add(2)`, `remove(1)`, `add(1)` and
segment 1. -/
theorem C12_one_entry_per_added_segment_witness :
    NoRepeatedAdd [IndexCall.add 1, IndexCall.add 2, IndexCall.remove 1, IndexCall.add 1] ∧
    currentlyAdded [IndexCall.add 1, IndexCall.add 2, IndexCall.remove 1, IndexCall.add 1] 1
      = true ∧
    (entryCount (runCalls sampleMemory empty
        [IndexCall.add 1, IndexCall.add 2, IndexCall.remove 1, IndexCall.add 1]) 1 = 1 ∧
     ∀ e ∈ (runCalls sampleMemory empty
        [IndexCall.add 1, IndexCall.add 2, IndexCall.remove 1, IndexCall.add 1]).index.entries,
      e.2 = 1 → e.1 = Envelope.ofPoints (sampleMemory 1).p0 (sampleMemory 1).p1) :=
  have hcalls : NoRepeatedAdd
      [IndexCall.add 1, IndexCall.add 2, IndexCall.remove 1, IndexCall.add 1] :=
    NoRepeatedAdd.add [IndexCall.add 1, IndexCall.add 2, IndexCall.remove 1] 1
      (NoRepeatedAdd.remove [IndexCall.add 1, IndexCall.add 2] 1
        (NoRepeatedAdd.add [IndexCall.add 1] 2
          (NoRepeatedAdd.add [] 1 NoRepeatedAdd.none (by decide)) (by decide)))
      (by decide)
  ⟨hcalls, by decide,
    C12_one_entry_per_added_segment sampleMemory
      [IndexCall.add 1, IndexCall.add 2, IndexCall.remove 1, IndexCall.add 1] hcalls 1
      (by decide)⟩

/-- Claim C13: for every index state and every segment `s`, calling `add(s)` twice
inserts two entries for `s` into the backing spatial index (the entry count for `s`
grows by 2) and retains two envelopes; a single `remove(s)` afterwards leaves the
count one above what it was before the two calls, and whatever the endpoints of `s`
are at the removal, at least one entry for `s` is left. -/
theorem C13_add_twice (mem memR : SegmentMemory D) (idx : LineSegmentIndex D) (s : Nat) :
    entryCount (add mem (add mem idx s) s) s = entryCount idx s + 2 ∧
    (add mem (add mem idx s) s).newEnvelopes =
      idx.newEnvelopes ++ [Envelope.ofPoints (mem s).p0 (mem s).p1,
        Envelope.ofPoints (mem s).p0 (mem s).p1] ∧
    entryCount (remove mem (add mem (add mem idx s) s) s) s = entryCount idx s + 1 ∧
    (remove mem (add mem (add mem idx s) s) s).newEnvelopes.length =
      idx.newEnvelopes.length + 2 ∧
    1 ≤ entryCount (remove memR (add mem (add mem idx s) s) s) s := by
  have hcount : entryCount (add mem (add mem idx s) s) s = entryCount idx s + 2 := by
    simp [entryCount, add, SpatialIndex.insert, List.countP_append, List.countP_cons]
  have hin : (Envelope.ofPoints (mem s).p0 (mem s).p1, s) ∈
      (add mem (add mem idx s) s).index.entries := by
    simp [add, SpatialIndex.insert]
  have h1 := entryCount_remove_of_mem mem (add mem (add mem idx s) s) s hin
  have h2 := entryCount_le_remove memR (add mem (add mem idx s) s) s s
  refine ⟨hcount, by simp [add], by omega, by simp [remove, add], by omega⟩

/-- Claim C19: each `add` retains exactly one new envelope, the bounding box of the
segment's endpoints; `remove` and `query` leave the retained envelopes as they
are; hence after every sequence of add, remove and query calls on a new index the
number of retained envelopes equals the number of `add(segment)` calls made. -/
theorem C19_newEnvelopes_count (mem : SegmentMemory D) :
    (∀ (idx : LineSegmentIndex D) (seg : Nat), (add mem idx seg).newEnvelopes =
      idx.newEnvelopes ++ [Envelope.ofPoints (mem seg).p0 (mem seg).p1]) ∧
    (∀ (idx : LineSegmentIndex D) (seg : Nat),
      (remove mem idx seg).newEnvelopes = idx.newEnvelopes) ∧
    (∀ (idx : LineSegmentIndex D) (q : Nat),
      (perform mem idx (IndexCall.query q)).newEnvelopes = idx.newEnvelopes) ∧
    (∀ calls : List IndexCall,
      (runCalls mem empty calls).newEnvelopes.length = addCount calls) := by
  refine ⟨fun _ _ => rfl, fun _ _ => rfl, fun _ _ => rfl, ?_⟩
  intro calls
  induction calls using List.reverseRecOn with
  | nil => rfl
  | append_singleton calls c ih =>
    rw [runCalls_append]
    cases c with
    | add seg =>
      simp only [perform, add, List.length_append, List.length_singleton, ih, addCount,
        List.countP_append, List.countP_cons, List.countP_nil, IndexCall.isAdd]
      simp
    | remove seg =>
      simp only [perform, remove, ih, addCount, List.countP_append, List.countP_cons,
        List.countP_nil, IndexCall.isAdd]
      simp
    | query q =>
      simp only [perform, ih, addCount, List.countP_append, List.countP_cons,
        List.countP_nil, IndexCall.isAdd]
      simp

end IndexCallProofs

end geos
